import Mathlib

/-!
Shallow embedding of the gopayamgostar client library (Go) in Lean 4.

The embedding covers the pieces exercised by the specification claims:

* the two custom JSON codecs in `models.go` (`StringOrArray` and
  `EnforcedString`), together with a model of the standard library
  behaviour of `json.Unmarshal` into `string` / `[]string` targets and of
  `json.Marshal` on `string` / `[]string` values;
* the error-classification pipeline in `client.go` (`checkForError`,
  `ParseAPIErrType`, the `APIError` shape);
* client construction (`NewClient`, `makeURL`, the endpoint path table).

Byte slices are modelled at rune granularity as `List Char`; every byte
that the claims exercise is ASCII, so this is faithful for the inputs at
stake. Fallible operations return `Option`, with `none` standing for a
returned Go `error`.
-/

/-! ## Model of `encoding/json` scanning for string and []string targets

Go's `json.Unmarshal` skips leading whitespace, decodes a single value,
and rejects trailing non-whitespace data. For a `string` target the value
must be a JSON string (or `null`, which leaves the zero value in place);
for a `[]string` target it must be an array of JSON strings (or `null`).
The string scanner below is a one-rune-per-step state machine so that it
is structurally recursive and evaluates inside the kernel.
-/

/-- Whitespace characters accepted by the Go JSON scanner. -/
def isJsonWs (c : Char) : Bool :=
  c = ' ' || c = '\t' || c = '\n' || c = '\r'

/-- Skip leading JSON whitespace, as the Go scanner does before a value. -/
def skipWs (cs : List Char) : List Char :=
  cs.dropWhile isJsonWs

/-- Numeric value of a hexadecimal digit, as in Go `getu4`. -/
def hexDigitVal (c : Char) : Option Nat :=
  if 48 ≤ c.toNat ∧ c.toNat ≤ 57 then some (c.toNat - 48)
  else if 97 ≤ c.toNat ∧ c.toNat ≤ 102 then some (c.toNat - 87)
  else if 65 ≤ c.toNat ∧ c.toNat ≤ 70 then some (c.toNat - 55)
  else none

/-- Simple one-character escapes accepted after a backslash inside a JSON
string (Go `unquoteBytes`). -/
def simpleEscape (c : Char) : Option Char :=
  if c = '"' then some '"'
  else if c = '\\' then some '\\'
  else if c = '/' then some '/'
  else if c = 'b' then some (Char.ofNat 8)
  else if c = 'f' then some (Char.ofNat 12)
  else if c = 'n' then some '\n'
  else if c = 'r' then some '\r'
  else if c = 't' then some '\t'
  else none

/-- The Unicode replacement character, which Go emits for lone surrogate
escapes. -/
def replChar : Char := Char.ofNat 0xFFFD

/-- Scanner mode inside a JSON string literal. `psur` modes track a
pending surrogate escape `\uXXXX` whose pairing with a following escape
is still undecided, mirroring Go `unquoteBytes`. -/
inductive SMode : Type
  | normal : SMode
  | esc : SMode
  | hex : Nat → Nat → SMode
  | psur : Nat → SMode
  | psurEsc : Nat → SMode
  | psurHex : Nat → Nat → Nat → SMode
deriving DecidableEq, Repr

/-- Outcome of feeding one rune to the string scanner. -/
inductive SOut : Type
  | err : SOut
  | closed : List Char → SOut
  | more : List Char → SMode → SOut
deriving DecidableEq, Repr

/-- Combine a high and a low surrogate into one code point. -/
def combineSurrogates (hi lo : Nat) : Char :=
  Char.ofNat (0x10000 + (hi - 0xD800) * 0x400 + (lo - 0xDC00))

/-- One step of the JSON string scanner. `acc` is the decoded content so
far, in reverse. Mirrors Go `unquoteBytes` rune by rune, including its
replacement-character handling of unpaired surrogate escapes. -/
def stepString (m : SMode) (acc : List Char) (c : Char) : SOut :=
  match m with
  | .normal =>
    if c = '"' then .closed acc
    else if c = '\\' then .more acc .esc
    else if c.toNat < 0x20 then .err
    else .more (c :: acc) .normal
  | .esc =>
    match simpleEscape c with
    | some e => .more (e :: acc) .normal
    | none => if c = 'u' then .more acc (.hex 0 0) else .err
  | .hex v k =>
    match hexDigitVal c with
    | none => .err
    | some d =>
      let v' := v * 16 + d
      if k < 3 then .more acc (.hex v' (k + 1))
      else if v' < 0xD800 ∨ 0xDFFF < v' then .more (Char.ofNat v' :: acc) .normal
      else .more acc (.psur v')
  | .psur hi =>
    if c = '\\' then .more acc (.psurEsc hi)
    else
      -- the pending surrogate becomes a replacement character and `c` is
      -- reprocessed in normal mode
      if c = '"' then .closed (replChar :: acc)
      else if c.toNat < 0x20 then .err
      else .more (c :: replChar :: acc) .normal
  | .psurEsc hi =>
    if c = 'u' then .more acc (.psurHex hi 0 0)
    else
      -- replacement character for the pending surrogate; the consumed
      -- backslash together with `c` is an ordinary escape
      match simpleEscape c with
      | some e => .more (e :: replChar :: acc) .normal
      | none => .err
  | .psurHex hi v k =>
    match hexDigitVal c with
    | none => .err
    | some d =>
      let v' := v * 16 + d
      if k < 3 then .more acc (.psurHex hi v' (k + 1))
      else if (0xD800 ≤ hi ∧ hi ≤ 0xDBFF) ∧ (0xDC00 ≤ v' ∧ v' ≤ 0xDFFF) then
        .more (combineSurrogates hi v' :: acc) .normal
      else if 0xD800 ≤ v' ∧ v' ≤ 0xDFFF then
        -- pair failed: replacement character for the first escape, and
        -- the second surrogate escape is pending in its own right
        .more (replChar :: acc) (.psur v')
      else
        -- pair failed: replacement character for the first escape, the
        -- second escape denotes an ordinary code point
        .more (Char.ofNat v' :: replChar :: acc) .normal

/-- Run the string scanner over the input after the opening quote.
Returns the decoded content and the input remaining after the closing
quote, or `none` for a malformed or unterminated string. -/
def runStr : SMode → List Char → List Char → Option (List Char × List Char)
  | _, _, [] => none
  | m, acc, c :: cs =>
    match stepString m acc c with
    | .err => none
    | .closed acc' => some (acc'.reverse, cs)
    | .more acc' m' => runStr m' acc' cs

/-- Model of `json.Unmarshal(data, &s)` for a `string` target `s` whose
prior value is the zero value `""`: leading and trailing whitespace is
accepted, the value must be a JSON string, and a top-level `null`
succeeds leaving the zero value in place. -/
def jsonUnmarshalString (data : List Char) : Option (List Char) :=
  match skipWs data with
  | '"' :: rest =>
    match runStr .normal [] rest with
    | some (s, rest') => if (skipWs rest').isEmpty then some s else none
    | none => none
  | 'n' :: 'u' :: 'l' :: 'l' :: rest =>
    if (skipWs rest).isEmpty then some [] else none
  | _ => none

/-- Scanner mode inside a JSON array of strings. -/
inductive AMode : Type
  | expectFirst : AMode
  | inStr : SMode → List Char → AMode
  | nul : Nat → AMode
  | afterElem : AMode
  | expectVal : AMode
deriving DecidableEq, Repr

/-- Run the array scanner over the input after the opening bracket.
`els` is the list of decoded elements so far, in reverse. A `null`
element leaves the zero value `""` in its slot, as Go does. -/
def runArr : AMode → List (List Char) → List Char → Option (List (List Char) × List Char)
  | _, _, [] => none
  | m, els, c :: cs =>
    match m with
    | .expectFirst =>
      if isJsonWs c then runArr .expectFirst els cs
      else if c = ']' then some (els.reverse, cs)
      else if c = '"' then runArr (.inStr .normal []) els cs
      else if c = 'n' then runArr (.nul 1) els cs
      else none
    | .inStr sm sacc =>
      match stepString sm sacc c with
      | .err => none
      | .closed acc' => runArr .afterElem (acc'.reverse :: els) cs
      | .more acc' sm' => runArr (.inStr sm' acc') els cs
    | .nul k =>
      if k = 1 ∧ c = 'u' then runArr (.nul 2) els cs
      else if k = 2 ∧ c = 'l' then runArr (.nul 3) els cs
      else if k = 3 ∧ c = 'l' then runArr .afterElem ([] :: els) cs
      else none
    | .afterElem =>
      if isJsonWs c then runArr .afterElem els cs
      else if c = ',' then runArr .expectVal els cs
      else if c = ']' then some (els.reverse, cs)
      else none
    | .expectVal =>
      if isJsonWs c then runArr .expectVal els cs
      else if c = '"' then runArr (.inStr .normal []) els cs
      else if c = 'n' then runArr (.nul 1) els cs
      else none

/-- Model of `json.Unmarshal(data, &xs)` for a `[]string` target whose
prior value is the zero value `nil`: the value must be an array of JSON
strings, and a top-level `null` succeeds leaving the zero value in place
(modelled as the empty list). -/
def jsonUnmarshalStringArray (data : List Char) : Option (List (List Char)) :=
  match skipWs data with
  | '[' :: rest =>
    match runArr .expectFirst [] rest with
    | some (els, rest') => if (skipWs rest').isEmpty then some els else none
    | none => none
  | 'n' :: 'u' :: 'l' :: 'l' :: rest =>
    if (skipWs rest).isEmpty then some [] else none
  | _ => none

/-! ## Model of `json.Marshal` on `string` and `[]string` values

Go `appendString` with HTML escaping on (the `json.Marshal` default):
quote, backslash, newline, carriage return and tab get two-character
escapes; other control characters get `\u00xx`; `<`, `>`, `&`, U+2028 and
U+2029 get `\uxxxx`; everything else is emitted verbatim.
-/

/-- Lowercase hexadecimal digit character, as in Go `encodeState`. -/
def hexDigitChar (k : Nat) : Char :=
  if k < 10 then Char.ofNat (48 + k) else Char.ofNat (87 + k)

/-- The escape sequence (or verbatim character) that Go `appendString`
emits for one rune. -/
def escapeCharGo (c : Char) : List Char :=
  if c = '"' then ['\\', '"']
  else if c = '\\' then ['\\', '\\']
  else if c = '\n' then ['\\', 'n']
  else if c = '\r' then ['\\', 'r']
  else if c = '\t' then ['\\', 't']
  else if c.toNat < 0x20 then
    ['\\', 'u', '0', '0', hexDigitChar (c.toNat / 16), hexDigitChar (c.toNat % 16)]
  else if c = '<' then ['\\', 'u', '0', '0', '3', 'c']
  else if c = '>' then ['\\', 'u', '0', '0', '3', 'e']
  else if c = '&' then ['\\', 'u', '0', '0', '2', '6']
  else if c.toNat = 0x2028 then ['\\', 'u', '2', '0', '2', '8']
  else if c.toNat = 0x2029 then ['\\', 'u', '2', '0', '2', '9']
  else [c]

/-- Model of `json.Marshal` on a `string` value. -/
def serializeString (s : List Char) : List Char :=
  '"' :: (s.map escapeCharGo).flatten ++ ['"']

/-- Model of `json.Marshal` on a non-nil `[]string` value. -/
def serializeStringArray (xs : List (List Char)) : List Char :=
  match xs with
  | [] => ['[', ']']
  | x :: rest =>
    '[' :: serializeString x
      ++ (rest.map (fun y => ',' :: serializeString y)).flatten ++ [']']

/-! ## The `StringOrArray` codec (`models.go`) -/

/-- Embedding of `StringOrArray.UnmarshalJSON`: when the input has more
than one byte and its first byte is an opening bracket, decode as a JSON
array of strings; otherwise decode as a single JSON string and wrap it in
a one-element list. `none` models a returned error. -/
def stringOrArrayUnmarshal (data : List Char) : Option (List (List Char)) :=
  if 1 < data.length ∧ data.head? = some '[' then
    jsonUnmarshalStringArray data
  else
    (jsonUnmarshalString data).map (fun s => [s])

/-- Embedding of `StringOrArray.MarshalJSON`: a one-element list is
emitted as the bare JSON string, anything else as a JSON array. -/
def stringOrArrayMarshal (s : List (List Char)) : List Char :=
  match s with
  | [x] => serializeString x
  | _ => serializeStringArray s

/-- Decoder following the words of the specification claim: dispatch on
the first non-whitespace byte, with a bracket selecting the array
decoder. This definition exists only to be compared with
`stringOrArrayUnmarshal`, which is translated from the source. -/
def specStringOrArrayDecode (data : List Char) : Option (List (List Char)) :=
  match skipWs data with
  | '[' :: _ => jsonUnmarshalStringArray data
  | _ => (jsonUnmarshalString data).map (fun s => [s])

/-! ## The `EnforcedString` codec (`models.go`) -/

/-- Embedding of `bytes.ReplaceAll(data, [quote], [backslash, quote])`:
the pattern is one byte long, so the replacement expands every quote. -/
def escapeQuotes : List Char → List Char
  | [] => []
  | c :: s => if c = '"' then '\\' :: '"' :: escapeQuotes s else c :: escapeQuotes s

/-- Embedding of the second `bytes.ReplaceAll` in
`EnforcedString.UnmarshalJSON`, which rewrites every occurrence of
backslash-backslash-quote to backslash-quote, scanning left to right over
non-overlapping occurrences. -/
def collapseEsc : List Char → List Char
  | '\\' :: '\\' :: '"' :: s => '\\' :: '"' :: collapseEsc s
  | c :: s => c :: collapseEsc s
  | [] => []

/-- Embedding of `EnforcedString.UnmarshalJSON`. The Go code reads
`data[0]` without a length guard, so the empty input is a run-time panic,
modelled as `none`. Otherwise the result is the assigned string value
paired with a flag recording whether an error was returned (on error the
assigned value is the zero value, since `val` is freshly declared). -/
def enforcedStringUnmarshal (data : List Char) : Option (List Char × Bool) :=
  match data with
  | [] => none
  | d0 :: _ =>
    let data' :=
      if d0 ≠ '"' then '"' :: collapseEsc (escapeQuotes data) ++ ['"'] else data
    some (match jsonUnmarshalString data' with
      | some v => (v, false)
      | none => ([], true))

/-! ## Error classification (`client.go`, `models.go`) -/

/-- Embedding of the Go string type `APIErrType` from `models.go`. -/
def APIErrType : Type := String

instance : DecidableEq APIErrType := fun a b => String.decEq a b

/-- The `unknown` error category constant. -/
def APIErrTypeUnknown : APIErrType := "unknown"

/-- The invalid-grant error category constant. -/
def APIErrTypeInvalidGrant : APIErrType := "oauth: invalid grant"

/-- Embedding of Go `strings.Contains`: some suffix of `s` starts with
`sub`. -/
def goStringsContains : List Char → List Char → Bool
  | s@(_ :: t), sub => sub.isPrefixOf s || goStringsContains t sub
  | [], sub => sub.isEmpty

/-- Embedding of `ParseAPIErrType` from `models.go`: a nil error maps to
the unknown category, an error whose text contains the substring
`invalid_grant` maps to the invalid-grant category, every other error
text maps to the unknown category. -/
def ParseAPIErrType (err : Option String) : APIErrType :=
  match err with
  | none => APIErrTypeUnknown
  | some e =>
    if goStringsContains e.toList "invalid_grant".toList then APIErrTypeInvalidGrant
    else APIErrTypeUnknown

/-- Modelled from the spec: the structured error-detail payload
(`HTTPErrorResponse`), whose definition is not among the sources; the
spec describes it only as a server-supplied structured error payload,
rendered to text when non-empty and folded into the classified error
message. It is modelled as its rendered text. -/
structure HTTPErrorResponse : Type where
  detail : String
deriving DecidableEq, Repr

/-- Modelled from the spec: the emptiness test `NotEmpty` on the
structured error detail. -/
def HTTPErrorResponse.renderNonEmpty (e : HTTPErrorResponse) : Bool :=
  e.detail ≠ ""

/-- Modelled from the spec: the text rendering of the structured error
detail used by the `%s` verb in `checkForError`. -/
def HTTPErrorResponse.render (e : HTTPErrorResponse) : String :=
  e.detail

/-- The parts of a `resty.Response` that `checkForError` inspects: the
numeric status code, the status line text, and the decoded error sink
(`none` when the sink is absent or not an `HTTPErrorResponse`). -/
structure RestyResponse : Type where
  statusCode : Nat
  status : String
  errorSink : Option HTTPErrorResponse
deriving DecidableEq, Repr

/-- Embedding of `resty.Response.IsError`: the status code is above 399. -/
def RestyResponse.isError (r : RestyResponse) : Bool :=
  399 < r.statusCode

/-- Embedding of the `APIError` struct from `models.go`. The Go field
`Type` is named `Type'` here because `Type` is reserved in Lean. -/
structure APIError : Type where
  Code : Nat
  Message : String
  Type' : APIErrType
deriving DecidableEq

/-- Embedding of `checkForError` from `client.go`. A `none` response
models a nil `*resty.Response`; a `none` transport error models a nil
`error`; the result `none` models the nil return. `errors.Wrap(err,
errMessage).Error()` renders as the context message, a colon and a
space, then the original error text. -/
def checkForError (resp : Option RestyResponse) (err : Option String)
    (errMessage : String) : Option APIError :=
  match err with
  | some e =>
    some { Code := 0
           Message := errMessage ++ ": " ++ e
           Type' := ParseAPIErrType (some e) }
  | none =>
    match resp with
    | none =>
      some { Code := 0
             Message := "empty response"
             Type' := ParseAPIErrType none }
    | some r =>
      if r.isError then
        let msg :=
          match r.errorSink with
          | some e => if e.renderNonEmpty then r.status ++ ": " ++ e.render else r.status
          | none => r.status
        some { Code := r.statusCode
               Message := msg
               Type' := ParseAPIErrType none }
      else none

/-! ## Client construction (`client.go`) -/

/-- The URL separator constant from `client.go`. -/
def urlSeparator : String := "/"

/-- Embedding of `makeURL`: join the path segments with the separator,
as Go `strings.Join` does. -/
def makeURL (path : List String) : String :=
  String.intercalate urlSeparator path

/-- Embedding of Go `strings.TrimRight(s, "/")`: remove every trailing
separator character. -/
def goTrimRightSlash (s : String) : String :=
  String.mk ((s.toList.reverse.dropWhile (fun c => c = '/')).reverse)

/-- The endpoint path table held in the client `Config` struct. -/
structure PayamgostarConfig : Type where
  AuthEndpoint : String
  GetFormEndpoint : String
  CreateFormEndpoint : String
  FindFormEndpoint : String
  UpdateFormEndpoint : String
  GetPersonEndpoint : String
  FindPersonEndpoint : String
  CreatePurchaseEndpoint : String
  DeletePurchaseEndpoint : String
deriving DecidableEq, Repr

/-- The client state built by `NewClient`: the stored base path and the
endpoint table. The resty transport handle is an external collaborator
and carries no data any claim inspects. -/
structure GoPayamgostar : Type where
  basePath : String
  Config : PayamgostarConfig

/-- Embedding of `NewClient`: trim trailing separators from the base
path, fill the fixed endpoint table, then apply the functional options in
order. -/
def NewClient (basePath : String) (options : List (GoPayamgostar → GoPayamgostar)) :
    GoPayamgostar :=
  let c : GoPayamgostar :=
    { basePath := goTrimRightSlash basePath
      Config :=
        { AuthEndpoint := makeURL ["api", "v2", "auth", "login"]
          GetFormEndpoint := makeURL ["api", "v2", "crmobject", "form", "get"]
          CreateFormEndpoint := makeURL ["api", "v2", "crmobject", "form", "create"]
          UpdateFormEndpoint := makeURL ["api", "v2", "crmobject", "form", "update"]
          FindFormEndpoint := makeURL ["api", "v2", "crmobject", "form", "find"]
          GetPersonEndpoint := makeURL ["api", "v2", "crmobject", "person", "get"]
          FindPersonEndpoint := makeURL ["api", "v2", "crmobject", "person", "find"]
          CreatePurchaseEndpoint := makeURL ["api", "v2", "crmobject", "invoice", "purchase", "create"]
          DeletePurchaseEndpoint := makeURL ["api", "v2", "crmobject", "invoice", "purchase", "delete"] } }
  options.foldl (fun c o => o c) c

/-! ## Round-trip infrastructure for the string scanner -/

/-- Feed a chunk of runes to the string scanner, requiring every step to
continue (no close, no error). Used to reason about scanner runs chunk by
chunk. -/
def stepsThrough : SMode → List Char → List Char → Option (SMode × List Char)
  | m, acc, [] => some (m, acc)
  | m, acc, c :: cs =>
    match stepString m acc c with
    | .more acc' m' => stepsThrough m' acc' cs
    | _ => none

theorem stepsThrough_append (m : SMode) (acc l1 l2 : List Char) :
    stepsThrough m acc (l1 ++ l2) =
      (stepsThrough m acc l1).bind (fun p => stepsThrough p.1 p.2 l2) := by
  induction l1 generalizing m acc with
  | nil => simp [stepsThrough]
  | cons c t ih =>
    simp only [List.cons_append, stepsThrough]
    cases stepString m acc c with
    | err => simp
    | closed acc' => simp
    | more acc' m' => exact ih m' acc'

theorem runStr_after_steps {m : SMode} {acc chunk : List Char} {m' : SMode}
    {acc' : List Char} (h : stepsThrough m acc chunk = some (m', acc'))
    (rest : List Char) :
    runStr m acc (chunk ++ rest) = runStr m' acc' rest := by
  induction chunk generalizing m acc with
  | nil =>
    simp only [stepsThrough] at h
    cases h
    simp
  | cons c t ih =>
    simp only [stepsThrough] at h
    cases hs : stepString m acc c with
    | err => rw [hs] at h; cases h
    | closed a => rw [hs] at h; cases h
    | more a m2 =>
      rw [hs] at h
      simpa only [List.cons_append, runStr, hs] using ih h

theorem runArr_after_steps {m : SMode} {acc chunk : List Char} {m' : SMode}
    {acc' : List Char} (h : stepsThrough m acc chunk = some (m', acc'))
    (els : List (List Char)) (rest : List Char) :
    runArr (.inStr m acc) els (chunk ++ rest) = runArr (.inStr m' acc') els rest := by
  induction chunk generalizing m acc with
  | nil =>
    simp only [stepsThrough] at h
    cases h
    simp
  | cons c t ih =>
    simp only [stepsThrough] at h
    cases hs : stepString m acc c with
    | err => rw [hs] at h; cases h
    | closed a => rw [hs] at h; cases h
    | more a m2 =>
      rw [hs] at h
      simpa only [List.cons_append, runArr, hs] using ih h

theorem hexDigitVal_hexDigitChar {k : Nat} (h : k < 16) :
    hexDigitVal (hexDigitChar k) = some k := by
  interval_cases k <;> decide

theorem stepString_hex_step {v k : Nat} (hk : k < 3) {d : Nat} (hd : d < 16)
    (acc : List Char) :
    stepString (.hex v k) acc (hexDigitChar d) = .more acc (.hex (v * 16 + d) (k + 1)) := by
  simp [stepString, hexDigitVal_hexDigitChar hd, hk]

theorem stepString_hex_last {v d : Nat} (hd : d < 16) (hsmall : v * 16 + d < 0xD800)
    (acc : List Char) :
    stepString (.hex v 3) acc (hexDigitChar d) =
      .more (Char.ofNat (v * 16 + d) :: acc) .normal := by
  have h3 : ¬ (3 < 3) := by omega
  simp [stepString, hexDigitVal_hexDigitChar hd, h3, Or.inl hsmall]

/-- Stepping the scanner along one cons cell is stepping once and then
stepping the tail when the step continues. -/
theorem stepsThrough_cons_more {m : SMode} {acc : List Char} {c : Char}
    {acc' : List Char} {m' : SMode} (h : stepString m acc c = .more acc' m')
    (cs : List Char) :
    stepsThrough m acc (c :: cs) = stepsThrough m' acc' cs := by
  simp [stepsThrough, h]

/-- Skipping whitespace leaves a list alone when its head is not
whitespace. -/
theorem skipWs_cons {c : Char} (h : isJsonWs c = false) (l : List Char) :
    skipWs (c :: l) = c :: l := by
  simp [skipWs, List.dropWhile_cons, h]

/-- Stepping the scanner through the escape sequence Go emits for one
rune appends exactly that rune to the accumulator. -/
theorem stepsThrough_escapeCharGo (c : Char) (acc : List Char) :
    stepsThrough .normal acc (escapeCharGo c) = some (.normal, c :: acc) := by
  by_cases h1 : c = '"'
  · subst h1; rfl
  by_cases h2 : c = '\\'
  · subst h2; rfl
  by_cases h3 : c = '\n'
  · subst h3; rfl
  by_cases h4 : c = '\r'
  · subst h4; rfl
  by_cases h5 : c = '\t'
  · subst h5; rfl
  by_cases h6 : c.toNat < 0x20
  · have hE : escapeCharGo c =
        ['\\', 'u', '0', '0', hexDigitChar (c.toNat / 16), hexDigitChar (c.toNat % 16)] := by
      unfold escapeCharGo
      rw [if_neg h1, if_neg h2, if_neg h3, if_neg h4, if_neg h5, if_pos h6]
    have hd1 : c.toNat / 16 < 16 := by omega
    have hd2 : c.toNat % 16 < 16 := by omega
    have e0 : stepString .normal acc '\\' = .more acc .esc := rfl
    have e1 : stepString .esc acc 'u' = .more acc (.hex 0 0) := rfl
    have e2 : stepString (.hex 0 0) acc '0' = .more acc (.hex 0 1) := rfl
    have e3 : stepString (.hex 0 1) acc '0' = .more acc (.hex 0 2) := rfl
    have e4 := stepString_hex_step (v := 0) (k := 2) (by omega) hd1 acc
    have e5 := stepString_hex_last (v := 0 * 16 + c.toNat / 16) hd2 (by omega) acc
    rw [hE, stepsThrough_cons_more e0, stepsThrough_cons_more e1,
      stepsThrough_cons_more e2, stepsThrough_cons_more e3,
      stepsThrough_cons_more e4, stepsThrough_cons_more e5]
    rw [show (0 * 16 + c.toNat / 16) * 16 + c.toNat % 16 = c.toNat by omega,
      Char.ofNat_toNat]
    rfl
  by_cases h7 : c = '<'
  · subst h7; rfl
  by_cases h8 : c = '>'
  · subst h8; rfl
  by_cases h9 : c = '&'
  · subst h9; rfl
  by_cases h10 : c.toNat = 0x2028
  · have hc : c = Char.ofNat 0x2028 := by rw [← h10, Char.ofNat_toNat]
    subst hc; rfl
  by_cases h11 : c.toNat = 0x2029
  · have hc : c = Char.ofNat 0x2029 := by rw [← h11, Char.ofNat_toNat]
    subst hc; rfl
  · have hE : escapeCharGo c = [c] := by
      unfold escapeCharGo
      rw [if_neg h1, if_neg h2, if_neg h3, if_neg h4, if_neg h5, if_neg h6,
        if_neg h7, if_neg h8, if_neg h9, if_neg h10, if_neg h11]
    have e0 : stepString .normal acc c = .more (c :: acc) .normal := by
      simp [stepString, h1, h2, h6]
    rw [hE, stepsThrough_cons_more e0]
    rfl

/-- Stepping the scanner through the serialized body of a string appends
the whole string to the accumulator. -/
theorem stepsThrough_body (s acc : List Char) :
    stepsThrough .normal acc ((s.map escapeCharGo).flatten) =
      some (.normal, s.reverse ++ acc) := by
  induction s generalizing acc with
  | nil => simp [stepsThrough]
  | cons c t ih =>
    rw [List.map_cons, List.flatten_cons, stepsThrough_append,
      stepsThrough_escapeCharGo, Option.some_bind, ih]
    simp

/-- Running the string scanner over a serialized body followed by the
closing quote decodes the original string. -/
theorem runStr_serialized (s acc rest : List Char) :
    runStr .normal acc ((s.map escapeCharGo).flatten ++ '"' :: rest) =
      some (acc.reverse ++ s, rest) := by
  rw [runStr_after_steps (stepsThrough_body s acc) ('"' :: rest)]
  simp [runStr, stepString]

/-- Unmarshalling an input that starts with a quote runs the string
scanner on the remainder. -/
theorem jsonUnmarshalString_quote (rest : List Char) :
    jsonUnmarshalString ('"' :: rest) =
      (match runStr .normal [] rest with
       | some (s, rest') => if (skipWs rest').isEmpty then some s else none
       | none => none) := by
  unfold jsonUnmarshalString
  rw [skipWs_cons (by decide)]
  rfl

/-- Decoding the Go serialization of a string gives back the string. -/
theorem jsonUnmarshalString_serialize (s : List Char) :
    jsonUnmarshalString (serializeString s) = some s := by
  have h1 : serializeString s = '"' :: ((s.map escapeCharGo).flatten ++ '"' :: []) := rfl
  rw [h1, jsonUnmarshalString_quote, runStr_serialized]
  rfl

/-! ## Round-trip lemmas for the array scanner -/

/-- Unmarshalling an input that starts with a bracket runs the array
scanner on the remainder. -/
theorem jsonUnmarshalStringArray_bracket (rest : List Char) :
    jsonUnmarshalStringArray ('[' :: rest) =
      (match runArr .expectFirst [] rest with
       | some (els, rest') => if (skipWs rest').isEmpty then some els else none
       | none => none) := by
  unfold jsonUnmarshalStringArray
  rw [skipWs_cons (by decide)]
  rfl

/-- The scanner state after decoding one serialized string element. -/
theorem runArr_inStr_serialized (x sacc : List Char) (els : List (List Char))
    (rest : List Char) :
    runArr (.inStr .normal sacc) els ((x.map escapeCharGo).flatten ++ '"' :: rest) =
      runArr .afterElem ((sacc.reverse ++ x) :: els) rest := by
  rw [runArr_after_steps (stepsThrough_body x sacc) els ('"' :: rest)]
  have hstep : runArr (.inStr .normal (x.reverse ++ sacc)) els ('"' :: rest) =
      runArr .afterElem ((x.reverse ++ sacc).reverse :: els) rest := rfl
  rw [hstep, List.reverse_append, List.reverse_reverse]

/-- Consuming one serialized element from the expect-value state. -/
theorem runArr_elem (x : List Char) (els : List (List Char)) (rest : List Char) :
    runArr .expectVal els (serializeString x ++ rest) =
      runArr .afterElem (x :: els) rest := by
  have hshape : serializeString x ++ rest =
      '"' :: ((x.map escapeCharGo).flatten ++ '"' :: rest) := by
    simp [serializeString]
  rw [hshape]
  have hstep : runArr .expectVal els
      ('"' :: ((x.map escapeCharGo).flatten ++ '"' :: rest)) =
      runArr (.inStr .normal []) els ((x.map escapeCharGo).flatten ++ '"' :: rest) := rfl
  rw [hstep, runArr_inStr_serialized]
  rfl

/-- Consuming the serialized tail of an array (comma-prefixed elements
followed by the closing bracket) collects exactly those elements. -/
theorem runArr_tail (xs : List (List Char)) (els : List (List Char)) (rest : List Char) :
    runArr .afterElem els
        ((xs.map (fun y => ',' :: serializeString y)).flatten ++ ']' :: rest) =
      some (els.reverse ++ xs, rest) := by
  induction xs generalizing els with
  | nil =>
    have hstep : runArr .afterElem els (']' :: rest) = some (els.reverse, rest) := rfl
    simp [hstep]
  | cons y ys ih =>
    have hshape : (((y :: ys).map (fun y => ',' :: serializeString y)).flatten
          ++ ']' :: rest) =
        ',' :: (serializeString y ++
          ((ys.map (fun y => ',' :: serializeString y)).flatten ++ ']' :: rest)) := by
      simp
    rw [hshape]
    have hstep : runArr .afterElem els (',' :: (serializeString y ++
        ((ys.map (fun y => ',' :: serializeString y)).flatten ++ ']' :: rest))) =
        runArr .expectVal els (serializeString y ++
          ((ys.map (fun y => ',' :: serializeString y)).flatten ++ ']' :: rest)) := rfl
    rw [hstep, runArr_elem, ih]
    simp

/-- Decoding the Go serialization of a list of strings gives back the
list. -/
theorem jsonUnmarshalStringArray_serialize (xs : List (List Char)) :
    jsonUnmarshalStringArray (serializeStringArray xs) = some xs := by
  cases xs with
  | nil => rfl
  | cons x ys =>
    have hshape : serializeStringArray (x :: ys) =
        '[' :: ('"' :: ((x.map escapeCharGo).flatten ++ '"' ::
          ((ys.map (fun y => ',' :: serializeString y)).flatten ++ ']' :: []))) := by
      simp [serializeStringArray, serializeString]
    rw [hshape, jsonUnmarshalStringArray_bracket]
    have hstep : runArr .expectFirst []
        ('"' :: ((x.map escapeCharGo).flatten ++ '"' ::
          ((ys.map (fun y => ',' :: serializeString y)).flatten ++ ']' :: []))) =
        runArr (.inStr .normal []) []
          ((x.map escapeCharGo).flatten ++ '"' ::
            ((ys.map (fun y => ',' :: serializeString y)).flatten ++ ']' :: [])) := rfl
    rw [hstep, runArr_inStr_serialized, runArr_tail]
    rfl

/-! ## Codec-level lemmas -/

/-- Decoding the serialization of a list of strings through the
`StringOrArray` codec selects the array branch and returns the list. -/
theorem stringOrArrayUnmarshal_serializeArray (xs : List (List Char)) :
    stringOrArrayUnmarshal (serializeStringArray xs) = some xs := by
  have hcond : 1 < (serializeStringArray xs).length ∧
      (serializeStringArray xs).head? = some '[' := by
    cases xs with
    | nil => exact ⟨by decide, rfl⟩
    | cons x ys =>
      constructor
      · simp [serializeStringArray, List.length_append]
      · rfl
  rw [stringOrArrayUnmarshal, if_pos hcond]
  exact jsonUnmarshalStringArray_serialize xs

/-- The quote-escaping pass is the identity on inputs without quotes. -/
theorem escapeQuotes_of_no_quote {s : List Char} (h : '"' ∉ s) :
    escapeQuotes s = s := by
  induction s with
  | nil => rfl
  | cons c t ih =>
    have hc : ¬ c = '"' := fun hc => h (hc ▸ List.mem_cons_self c t)
    have ht : '"' ∉ t := fun hm => h (List.mem_cons_of_mem c hm)
    simp [escapeQuotes, hc, ih ht]

/-- Reduction of the escape-collapsing pass on a cons cell that does not
start a backslash-backslash-quote occurrence. -/
theorem collapseEsc_cons (c : Char) (t : List Char)
    (hne : ∀ s1 : List Char, c = '\\' → t = '\\' :: '"' :: s1 → False) :
    collapseEsc (c :: t) = c :: collapseEsc t := by
  rw [collapseEsc.eq_def]
  split
  · rename_i s1 heq
    exfalso
    injection heq with h1 h2
    exact hne s1 h1 h2
  · rename_i c2 s2 hg heq
    injection heq with h1 h2
    rw [h1, h2]
  · rename_i heq
    cases heq

/-- The escape-collapsing pass is the identity on inputs without quotes. -/
theorem collapseEsc_of_no_quote {s : List Char} (h : '"' ∉ s) :
    collapseEsc s = s := by
  induction s using collapseEsc.induct with
  | case1 t ih => simp at h
  | case2 c t hne ih =>
    have ht : '"' ∉ t := fun hm => h (List.mem_cons_of_mem c hm)
    rw [collapseEsc_cons c t hne, ih ht]
  | case3 => rfl

/-! ## Reduction lemmas for `checkForError` -/

theorem checkForError_err_eq (resp : Option RestyResponse) (e msg : String) :
    checkForError resp (some e) msg =
      some { Code := 0
             Message := msg ++ ": " ++ e
             Type' := ParseAPIErrType (some e) } := rfl

theorem checkForError_some_none (r : RestyResponse) (msg : String) :
    checkForError (some r) none msg =
      (if r.isError then
        some { Code := r.statusCode
               Message :=
                 match r.errorSink with
                 | some e => if e.renderNonEmpty then r.status ++ ": " ++ e.render else r.status
                 | none => r.status
               Type' := ParseAPIErrType none }
       else none) := rfl

/-! ## Trailing-separator trimming lemmas for `NewClient` -/

theorem trimRight_decomp (l : List Char) :
    ∃ k, l = (l.reverse.dropWhile (fun c => c = '/')).reverse ++ List.replicate k '/' := by
  refine ⟨(l.reverse.takeWhile (fun c => c = '/')).length, ?_⟩
  conv_lhs => rw [← List.reverse_reverse l]
  conv_lhs => rw [← List.takeWhile_append_dropWhile (p := fun c => c = '/') (l := l.reverse)]
  rw [List.reverse_append]
  congr 1
  rw [List.eq_replicate_iff]
  refine ⟨by simp, fun b hb => ?_⟩
  rw [List.mem_reverse] at hb
  have hp := List.mem_takeWhile_imp hb
  simpa using hp

theorem trimRight_no_trailing (l : List Char) :
    ((l.reverse.dropWhile (fun c => c = '/')).reverse).getLast? ≠ some '/' := by
  rw [List.getLast?_reverse]
  have h := List.head?_dropWhile_not (fun c => decide (c = '/')) l.reverse
  cases hh : (l.reverse.dropWhile (fun c => c = '/')).head? with
  | none => simp
  | some a =>
    rw [hh] at h
    simp only [decide_eq_false_iff_not] at h
    simp [h]

/-! ## Claim theorems -/

/-- C1: for every response with a failure status and a nil transport
error, `checkForError` returns a non-nil `APIError` whose `Code` equals
the response status code; its `Message` is the status line followed by
the rendered structured detail when the decoded detail is non-empty, and
the raw status line alone otherwise. -/
theorem checkForError_failure_status (r : RestyResponse) (msg : String)
    (h : r.isError = true) :
    (checkForError (some r) none msg).isSome = true ∧
    (checkForError (some r) none msg).map APIError.Code = some r.statusCode ∧
    (∀ det, r.errorSink = some det → det.renderNonEmpty = true →
        (checkForError (some r) none msg).map APIError.Message =
          some (r.status ++ ": " ++ det.render)) ∧
    ((∀ det, r.errorSink = some det → det.renderNonEmpty = false) →
        (checkForError (some r) none msg).map APIError.Message = some r.status) := by
  rw [checkForError_some_none, if_pos h]
  refine ⟨rfl, rfl, ?_, ?_⟩
  · intro det hdet hne
    rw [hdet]
    simp [hne]
  · intro hall
    cases hsink : r.errorSink with
    | none => rfl
    | some det =>
      have hne := hall det hsink
      simp [hne]

/-- Witness for C1: a 404 response carrying the non-empty detail `boom`
produces code 404 and the folded message. -/
theorem checkForError_failure_status_witness :
    (checkForError (some ⟨404, "404 Not Found", some ⟨"boom"⟩⟩) none "ctx").map
        APIError.Message = some ("404 Not Found" ++ ": " ++ "boom") :=
  (checkForError_failure_status ⟨404, "404 Not Found", some ⟨"boom"⟩⟩ "ctx"
    (by decide)).2.2.1 ⟨"boom"⟩ rfl (by decide)

/-- C2: for every non-nil transport error and any response value,
`checkForError` returns an `APIError` with code 0 whose message contains
the caller context message; and a nil transport error with a
success-status response yields no error. -/
theorem checkForError_transport_and_success :
    (∀ (resp : Option RestyResponse) (e msg : String),
        (checkForError resp (some e) msg).isSome = true ∧
        (checkForError resp (some e) msg).map APIError.Code = some 0 ∧
        ∃ pre post : String,
          (checkForError resp (some e) msg).map APIError.Message =
            some (pre ++ msg ++ post)) ∧
    (∀ (r : RestyResponse) (msg : String), r.isError = false →
        checkForError (some r) none msg = none) := by
  constructor
  · intro resp e msg
    rw [checkForError_err_eq]
    refine ⟨rfl, rfl, "", ": " ++ e, ?_⟩
    simp [String.append_assoc]
  · intro r msg h
    rw [checkForError_some_none, if_neg]
    simp [h]

/-- Witness for C2: a success-status response with no transport error is
classified as no error. -/
theorem checkForError_transport_and_success_witness :
    checkForError (some ⟨200, "200 OK", none⟩) none "ctx" = none :=
  checkForError_transport_and_success.2 ⟨200, "200 OK", none⟩ "ctx" (by decide)

/-- C7 counterexample: the claim reads the classifier as matching the
text `invalid grant` with a space, but the code matches `invalid_grant`
with an underscore: an error text equal to `invalid grant` contains the
claimed substring yet is classified as unknown. -/
theorem checkForError_invalid_grant_space_counterexample :
    (checkForError none (some "invalid grant") "m").map APIError.Type' =
        some APIErrTypeUnknown ∧
    APIErrTypeUnknown ≠ APIErrTypeInvalidGrant ∧
    goStringsContains "invalid grant".toList "invalid grant".toList = true := by
  refine ⟨rfl, by decide, by decide⟩

/-- C7 amended: when `checkForError` classifies a non-nil transport
error, the resulting type is the invalid-grant category exactly when the
error text contains the substring `invalid_grant` (with an underscore),
and the unknown category otherwise. -/
theorem checkForError_transport_invalid_grant (resp : Option RestyResponse)
    (errText msg : String) :
    (checkForError resp (some errText) msg).map APIError.Type' =
      some (if goStringsContains errText.toList "invalid_grant".toList
            then APIErrTypeInvalidGrant else APIErrTypeUnknown) := rfl

/-- C9: both non-transport failure branches of `checkForError` carry the
unknown category: the empty-response branch (with code 0) and the
failure-status branch, whatever the response contents. -/
theorem checkForError_non_transport_unknown :
    (∀ msg : String, checkForError none none msg =
        some { Code := 0, Message := "empty response", Type' := APIErrTypeUnknown }) ∧
    (∀ (r : RestyResponse) (msg : String), r.isError = true →
        (checkForError (some r) none msg).map APIError.Type' = some APIErrTypeUnknown) := by
  constructor
  · intro msg
    rfl
  · intro r msg h
    rw [checkForError_some_none, if_pos h]
    rfl

/-- Witness for C9: a 500 response with a detail body is still tagged
with the unknown category. -/
theorem checkForError_non_transport_unknown_witness :
    (checkForError (some ⟨500, "500 Internal Server Error", some ⟨"oops"⟩⟩) none "ctx").map
        APIError.Type' = some APIErrTypeUnknown :=
  checkForError_non_transport_unknown.2 ⟨500, "500 Internal Server Error", some ⟨"oops"⟩⟩
    "ctx" (by decide)

/-- C8: `NewClient` with no options stores the base path with every
trailing separator removed (what remains does not end in a separator and
the input is what remains plus some run of separators), and fills the
fixed endpoint table with the versioned paths joined by the separator. -/
theorem NewClient_basePath_and_endpoints (bp : String) :
    (∃ k, bp.toList = (NewClient bp []).basePath.toList ++ List.replicate k '/') ∧
    (NewClient bp []).basePath.toList.getLast? ≠ some '/' ∧
    (NewClient bp []).Config.AuthEndpoint = "api/v2/auth/login" ∧
    (NewClient bp []).Config.GetFormEndpoint = "api/v2/crmobject/form/get" ∧
    (NewClient bp []).Config.CreateFormEndpoint = "api/v2/crmobject/form/create" ∧
    (NewClient bp []).Config.UpdateFormEndpoint = "api/v2/crmobject/form/update" ∧
    (NewClient bp []).Config.FindFormEndpoint = "api/v2/crmobject/form/find" ∧
    (NewClient bp []).Config.GetPersonEndpoint = "api/v2/crmobject/person/get" ∧
    (NewClient bp []).Config.FindPersonEndpoint = "api/v2/crmobject/person/find" ∧
    (NewClient bp []).Config.CreatePurchaseEndpoint =
      "api/v2/crmobject/invoice/purchase/create" ∧
    (NewClient bp []).Config.DeletePurchaseEndpoint =
      "api/v2/crmobject/invoice/purchase/delete" := by
  refine ⟨?_, ?_, rfl, rfl, rfl, rfl, rfl, rfl, rfl, rfl, rfl⟩
  · exact trimRight_decomp bp.toList
  · exact trimRight_no_trailing bp.toList

/-- Reduction of the `EnforcedString` decoder on a non-empty input. -/
theorem enforcedStringUnmarshal_cons (d0 : Char) (t : List Char) :
    enforcedStringUnmarshal (d0 :: t) =
      some (match jsonUnmarshalString
          (if d0 ≠ '"' then '"' :: collapseEsc (escapeQuotes (d0 :: t)) ++ ['"']
           else d0 :: t) with
        | some v => (v, false)
        | none => ([], true)) := rfl

/-- C4: a singleton JSON array decodes to a one-element list, which the
codec re-encodes as the bare JSON string of its element — whose first
byte is a quote rather than an opening bracket. -/
theorem stringOrArray_singleton_roundtrip (x : List Char) :
    stringOrArrayUnmarshal (serializeStringArray [x]) = some [x] ∧
    stringOrArrayMarshal [x] = serializeString x ∧
    (stringOrArrayMarshal [x]).head? = some '"' ∧
    (serializeStringArray [x]).head? = some '[' :=
  ⟨stringOrArrayUnmarshal_serializeArray [x], rfl, rfl, rfl⟩

/-- C5: decode-then-encode through the codec is the identity on the
serialization of any list of strings with more than one element. -/
theorem stringOrArray_multi_roundtrip (xs : List (List Char)) (h : 1 < xs.length) :
    stringOrArrayUnmarshal (serializeStringArray xs) = some xs ∧
    stringOrArrayMarshal xs = serializeStringArray xs ∧
    (stringOrArrayUnmarshal (serializeStringArray xs)).map stringOrArrayMarshal =
      some (serializeStringArray xs) := by
  have h1 := stringOrArrayUnmarshal_serializeArray xs
  have h2 : stringOrArrayMarshal xs = serializeStringArray xs := by
    match xs, h with
    | x :: y :: rest, _ => rfl
  refine ⟨h1, h2, ?_⟩
  rw [h1]
  simp [h2]

/-- Witness for C5 at the two-element array of `a` and `b`. -/
theorem stringOrArray_multi_roundtrip_witness :
    1 < ([['a'], ['b']] : List (List Char)).length ∧
    stringOrArrayUnmarshal (serializeStringArray [['a'], ['b']]) = some [['a'], ['b']] :=
  ⟨by decide, (stringOrArray_multi_roundtrip [['a'], ['b']] (by decide)).1⟩

/-- C3 counterexample: on an input whose first byte is whitespace and
whose first non-whitespace byte is an opening bracket, the code selects
the single-string branch and fails, although the input is a valid JSON
array of strings and the spec dispatch would decode it. -/
theorem stringOrArray_dispatch_counterexample :
    stringOrArrayUnmarshal (' ' :: '[' :: '"' :: 'a' :: '"' :: [']']) = none ∧
    jsonUnmarshalStringArray (' ' :: '[' :: '"' :: 'a' :: '"' :: [']']) = some [['a']] ∧
    specStringOrArrayDecode (' ' :: '[' :: '"' :: 'a' :: '"' :: [']']) = some [['a']] := by
  refine ⟨by decide, by decide, by decide⟩

/-- C3 amended: `StringOrArray` decode dispatches on the raw first byte
(and only when the input is longer than one byte): a leading bracket
selects the array decoder, anything else selects the single-string
decoder with the result wrapped in a one-element list, and decode fails
exactly when the selected decoder fails. -/
theorem stringOrArray_dispatch (data : List Char) :
    (1 < data.length ∧ data.head? = some '[' →
       stringOrArrayUnmarshal data = jsonUnmarshalStringArray data) ∧
    (¬ (1 < data.length ∧ data.head? = some '[') →
       stringOrArrayUnmarshal data = (jsonUnmarshalString data).map (fun s => [s])) ∧
    (stringOrArrayUnmarshal data = none ↔
       (if 1 < data.length ∧ data.head? = some '[' then jsonUnmarshalStringArray data = none
        else jsonUnmarshalString data = none)) := by
  by_cases h : 1 < data.length ∧ data.head? = some '['
  · rw [stringOrArrayUnmarshal, if_pos h]
    refine ⟨fun _ => rfl, fun hc => absurd h hc, ?_⟩
    rw [if_pos h]
  · rw [stringOrArrayUnmarshal, if_neg h]
    refine ⟨fun hc => absurd hc h, fun _ => rfl, ?_⟩
    rw [if_neg h]
    simp

/-- Witness for C3 (amended) on a two-element array input with a leading
bracket. -/
theorem stringOrArray_dispatch_witness :
    stringOrArrayUnmarshal ('[' :: '"' :: 'a' :: '"' :: ',' :: '"' :: 'b' :: '"' :: [']']) =
      jsonUnmarshalStringArray
        ('[' :: '"' :: 'a' :: '"' :: ',' :: '"' :: 'b' :: '"' :: [']']) :=
  (stringOrArray_dispatch
    ('[' :: '"' :: 'a' :: '"' :: ',' :: '"' :: 'b' :: '"' :: [']'])).1 (by decide)

/-- C6 counterexample: at the empty string the unquoted decode is the
out-of-bounds panic while the quoted form decodes to the empty string,
so the two paths do not produce the same value. -/
theorem enforcedString_empty_counterexample :
    enforcedStringUnmarshal [] = none ∧
    enforcedStringUnmarshal ('"' :: ([] : List Char) ++ ['"']) = some ([], false) :=
  ⟨rfl, rfl⟩

/-- C6 amended: for every non-empty string without quote characters, the
`EnforcedString` codec decodes the raw unquoted bytes and the quoted
form to the same result. -/
theorem enforcedString_quoted_unquoted_agree (s : List Char) (hq : '"' ∉ s)
    (hne : s ≠ []) :
    enforcedStringUnmarshal s = enforcedStringUnmarshal ('"' :: s ++ ['"']) := by
  match s, hne with
  | d0 :: t, _ =>
    have hd0 : d0 ≠ '"' := fun h => hq (h ▸ List.mem_cons_self d0 t)
    rw [enforcedStringUnmarshal_cons, if_pos hd0,
      escapeQuotes_of_no_quote hq, collapseEsc_of_no_quote hq]
    rw [List.cons_append '"' (d0 :: t) ['"'], enforcedStringUnmarshal_cons,
      if_neg (fun h => h rfl)]

/-- Witness for C6 (amended) at the one-character string `a`. -/
theorem enforcedString_quoted_unquoted_agree_witness :
    enforcedStringUnmarshal ['a'] = enforcedStringUnmarshal ('"' :: ['a'] ++ ['"']) :=
  enforcedString_quoted_unquoted_agree ['a'] (by decide) (by decide)

/-- C10: the `EnforcedString` decoder reads the first input byte without
a length guard: the empty input is a run-time panic, and every non-empty
input proceeds to a result. -/
theorem enforcedString_empty_panic :
    enforcedStringUnmarshal [] = none ∧
    ∀ d : List Char, d ≠ [] → (enforcedStringUnmarshal d).isSome = true := by
  refine ⟨rfl, ?_⟩
  intro d hd
  match d, hd with
  | c :: t, _ =>
    rw [enforcedStringUnmarshal_cons]
    rfl

/-- Witness for C10 at a one-byte input. -/
theorem enforcedString_empty_panic_witness :
    (enforcedStringUnmarshal ['a']).isSome = true :=
  enforcedString_empty_panic.2 ['a'] (by decide)
